import Mathlib

/-!
Shallow embedding of the two sequence-to-sequence models of this
repository: the plain encoder-decoder (01_Seq2Seq/model.py) and the
attention variant (02_Seq2SeqAttention/model.py).  Tensors are nested
lists of real numbers with runtime shapes.  Learned library modules
(nn.LSTM, nn.BatchNorm1d, nn.Embedding) whose internals no theorem
depends on are carried as abstract function fields of the module
structures, while every operation written in the repository itself
(slicing, broadcasting, batched matrix products, softmax, the decoding
loop, teacher forcing) is translated directly from the source.
-/

namespace NMT

/-- A 1-D float tensor. -/
abbrev Vec : Type := List ℝ

/-- A 2-D float tensor, row major: a list of rows. -/
abbrev Mat : Type := List Vec

/-- A 3-D float tensor: a list of matrices (leading/batch dimension first). -/
abbrev Ten3 : Type := List Mat

/-- Elementwise addition of two equally shaped 1-D tensors. -/
def addVec (a b : Vec) : Vec := List.zipWith (· + ·) a b

/-- Elementwise addition of two equally shaped 2-D tensors. -/
def addMat (a b : Mat) : Mat := List.zipWith addVec a b

/-- Inner product of two vectors. -/
def dotProduct (u v : Vec) : ℝ := (List.zipWith (· * ·) u v).sum

/-- nn.Linear with weight `W` (one row per output feature) and bias `b`,
applied to one feature vector. -/
def linear (W : Mat) (b : Vec) (x : Vec) : Vec :=
  List.zipWith (fun w bi => dotProduct w x + bi) W b

/-- Number of columns of a 2-D tensor (length of its first row). -/
def colCount {α : Type} (m : List (List α)) : ℕ := (m.headD []).length

/-- Matrix transpose (torch permute of the two trailing dimensions). -/
def transposeMat (m : Mat) : Mat :=
  (List.range (colCount m)).map (fun j => m.map (fun row => row.getD j 0))

/-- Matrix product, used batchwise to embed torch.bmm. -/
def matMul (a b : Mat) : Mat :=
  a.map (fun row => (transposeMat b).map (fun col => dotProduct row col))

/-- torch.bmm: batched matrix product of two 3-D tensors. -/
def bmm (a b : Ten3) : Ten3 := List.zipWith matMul a b

/-- Size of dimension 2 of a 3-D tensor (torch size(2)). -/
def dim2 (t : Ten3) : ℕ := colCount (t.headD [])

/-- Softmax of a list of scores: exp of each entry divided by the sum of
all the exps. -/
noncomputable def softmax (xs : Vec) : Vec :=
  xs.map (fun x => Real.exp x / (xs.map Real.exp).sum)

/-- Softmax along the row dimension of a matrix, columnwise: embeds
nn.Softmax(dim=1) acting on one batch element of a (batch, seq_len, k)
tensor. -/
noncomputable def softmaxMat (m : Mat) : Mat :=
  transposeMat ((transposeMat m).map softmax)

/-- nn.Softmax(dim=1) on a 3-D tensor. -/
noncomputable def softmaxDim1 (t : Ten3) : Ten3 := t.map softmaxMat

/-- Shape predicate for 2-D tensors: `r` rows, each of length `c`. -/
def mshape {α : Type} (m : List (List α)) (r c : ℕ) : Prop :=
  m.length = r ∧ ∀ row ∈ m, row.length = c

/-- Shape predicate for 3-D tensors. -/
def tshape {α : Type} (t : List (List (List α))) (a b c : ℕ) : Prop :=
  t.length = a ∧ ∀ m ∈ t, mshape m b c

instance mshapeDecidable {α : Type} (m : List (List α)) (r c : ℕ) :
    Decidable (mshape m r c) :=
  inferInstanceAs (Decidable (m.length = r ∧ ∀ row ∈ m, row.length = c))

instance tshapeDecidable {α : Type} (t : List (List (List α))) (a b c : ℕ) :
    Decidable (tshape t a b c) :=
  inferInstanceAs (Decidable (t.length = a ∧ ∀ m ∈ t, mshape m b c))

/-- Errors surfaced by the model code, in the taxonomy of the spec:
an unrecognized attention method at construction time, and invalid
runtime inputs (in the source these are a NotImplementedError raise and
the RuntimeError raised by pack_padded_sequence). -/
inductive ModelError : Type
  | invalidConfiguration : ModelError
  | invalidInput : ModelError
deriving DecidableEq

/-- Checks that a length vector is sorted in descending (non-increasing)
order, the precondition pack_padded_sequence enforces by default. -/
def sortedDescendingB : List ℕ → Bool
  | [] => true
  | [_] => true
  | a :: b :: rest => (decide (b ≤ a)) && sortedDescendingB (b :: rest)

/-- nn.utils.rnn.pack_padded_sequence with enforce_sorted=True (the
default used by both encoders): validates that the length vector is
sorted descending and raises otherwise, before any recurrence can run.
The packed layout itself is irrelevant to every claim, so the data is
carried through unchanged together with the lengths. -/
def pack_padded_sequence (emb : Ten3) (length : List ℕ) :
    Except ModelError (Ten3 × List ℕ) :=
  if sortedDescendingB length then Except.ok (emb, length)
  else Except.error ModelError.invalidInput

/-- nn.utils.rnn.pad_packed_sequence: re-expands a packed sequence to the
padded tensor plus the lengths (identity on this embedding of packing). -/
def pad_packed_sequence (p : Ten3 × List ℕ) : Ten3 × List ℕ := p

/-- The attention scorer of 02_Seq2SeqAttention/model.py.  `method` is the
string tag given at construction; `nnW`/`nnB` are the weight and bias of
self.nn (created for the general and concat methods) and `vW`/`vB` those
of self.v (created for concat). -/
structure Attention : Type where
  method : String
  rnn_dim : ℕ
  nnW : Mat
  nnB : Vec
  vW : Mat
  vB : Vec

/-- Attention.__init__: stores the method tag and raises (modelled as the
invalid-configuration error) when the tag is not one of dot, general,
concat; the learned layer parameters are supplied by the external
initializer. -/
def Attention.init (method : String) (rnn_dim : ℕ)
    (nnW : Mat) (nnB : Vec) (vW : Mat) (vB : Vec) :
    Except ModelError Attention :=
  if method ∉ ["dot", "general", "concat"] then
    Except.error ModelError.invalidConfiguration
  else
    Except.ok ⟨method, rnn_dim, nnW, nnB, vW, vB⟩

/-- Attention.dot: batched inner products src_inputs.bmm(tar_input),
with tar_input already permuted to (batch, rnn_dim, 1). -/
def Attention.dot (_a : Attention) (src_inputs tar_input : Ten3) : Ten3 :=
  bmm src_inputs tar_input

/-- Attention.general: self.nn applied to the source vectors, then the
batched inner product with the decoder vector. -/
def Attention.general (a : Attention) (src_inputs tar_input : Ten3) : Ten3 :=
  bmm (src_inputs.map (fun m => m.map (linear a.nnW a.nnB))) tar_input

/-- Attention.concat: permute the sources to (batch, rnn_dim, seq_len),
expand the decoder vector along seq_len, concatenate along the feature
dimension, permute back, apply self.nn, torch.tan (the source applies
tan, not tanh), then self.v. -/
noncomputable def Attention.concat (a : Attention) (src_inputs tar_input : Ten3) : Ten3 :=
  let src2 := src_inputs.map transposeMat
  let s := dim2 src2
  let tar2 := tar_input.map (fun m => m.map (fun row => List.replicate s (row.getD 0 0)))
  let hidden := List.zipWith (fun p e => p ++ e) src2 tar2
  let h2 := hidden.map transposeMat
  ((h2.map (fun m => m.map (linear a.nnW a.nnB))).map
      (fun m => m.map (fun row => row.map Real.tan))).map
    (fun m => m.map (linear a.vW a.vB))

/-- Attention.forward: permute the decoder state to (batch, rnn_dim, 1),
dispatch on the method tag (attention_value stays None for any other tag,
modelled as none), and normalize with softmax over the seq_len axis. -/
noncomputable def Attention.forward (a : Attention) (src_inputs tar_input : Ten3) :
    Option Ten3 :=
  let tarT := tar_input.map transposeMat
  let attention_value : Option Ten3 :=
    if a.method = "dot" then some (a.dot src_inputs tarT)
    else if a.method = "general" then some (a.general src_inputs tarT)
    else if a.method = "concat" then some (a.concat src_inputs tarT)
    else none
  attention_value.map softmaxDim1

/-- Stages of an encoder forward pass, logged in the order they execute. -/
inductive EncStep : Type
  | embed : EncStep
  | batchNorm : EncStep
  | pack : EncStep
  | rnn : EncStep
  | padPack : EncStep
  | collapse : EncStep
deriving DecidableEq

/-- Addition of two stacks of matrices along the leading dimension with
broadcasting of a length-1 operand, exactly as torch evaluates
hidden[:1] + hidden[1:]. -/
def addBroadcast (a b : List Mat) : List Mat :=
  if a.length = b.length then List.zipWith addMat a b
  else if a.length = 1 then b.map (fun x => addMat (a.headD []) x)
  else if b.length = 1 then a.map (fun x => addMat x (b.headD []))
  else []

/-- The bidirectional encoder of 02_Seq2SeqAttention/model.py.
nn.Embedding is carried as the row-lookup function `embedding`;
nn.BatchNorm1d and nn.LSTM are learned library modules whose internals no
claim depends on, carried as the abstract learned functions `batch_norm`
and `rnn` (the latter maps a packed batch to the packed per-position
outputs and the stacked hidden and cell states). -/
structure EncoderRNN : Type where
  embedding : ℕ → Vec
  seq_len : ℕ
  rnn_dim : ℕ
  n_layer : ℕ
  batch_norm : Ten3 → Ten3
  rnn : Ten3 × List ℕ → Ten3 × (List Mat × List Mat)

/-- EncoderRNN.forward of the attention variant: embed, batch-norm, pack
(which enforces the descending-sorted length precondition), run the
recurrence, re-pad, then collapse the two directions: the output channel
by summing the first and second half of the feature axis, the hidden and
cell stacks by the broadcast sum hidden[:1] + hidden[1:].  The first
component records which stages executed, in order. -/
def EncoderRNN.forward (e : EncoderRNN) (inputs : List (List ℕ)) (length : List ℕ) :
    List EncStep × Except ModelError (Ten3 × List Mat × List Mat) :=
  let embedded := inputs.map (fun row => row.map e.embedding)
  let embedded2 := e.batch_norm embedded
  match pack_padded_sequence embedded2 length with
  | Except.error err => ([EncStep.embed, EncStep.batchNorm], Except.error err)
  | Except.ok packed =>
    let r := e.rnn packed
    let outputs0 := (pad_packed_sequence (r.1, packed.2)).1
    let outputs := outputs0.map (fun m => m.map (fun row =>
      addVec (row.take e.rnn_dim) (row.drop e.rnn_dim)))
    let hidden := addBroadcast (r.2.1.take 1) (r.2.1.drop 1)
    let cell := addBroadcast (r.2.2.take 1) (r.2.2.drop 1)
    ([EncStep.embed, EncStep.batchNorm, EncStep.pack, EncStep.rnn,
      EncStep.padPack, EncStep.collapse],
     Except.ok (outputs, hidden, cell))

/-- The unidirectional encoder of 01_Seq2Seq/model.py: embed, pack, run
the recurrence, re-pad (the padded outputs are deleted), return the final
hidden and cell states. -/
structure EncoderRNNPlain : Type where
  embedding : ℕ → Vec
  rnn_dim : ℕ
  n_layers : ℕ
  rnn : Ten3 × List ℕ → Ten3 × (List Mat × List Mat)

/-- EncoderRNN.forward of the plain variant, with the executed stages in
the first component. -/
def EncoderRNNPlain.forward (e : EncoderRNNPlain) (inputs : List (List ℕ))
    (length : List ℕ) :
    List EncStep × Except ModelError (List Mat × List Mat) :=
  let embedded := inputs.map (fun row => row.map e.embedding)
  match pack_padded_sequence embedded length with
  | Except.error err => ([EncStep.embed], Except.error err)
  | Except.ok packed =>
    let r := e.rnn packed
    let _outputs := (pad_packed_sequence (r.1, packed.2)).1
    ([EncStep.embed, EncStep.pack, EncStep.rnn, EncStep.padPack],
     Except.ok (r.2.1, r.2.2))

/-- Concrete attention-variant encoder used to witness claim C2. -/
def encC2Ex : EncoderRNN :=
  ⟨fun _ => [], 4, 2, 1, id, fun p => (p.1, ([], []))⟩

/-- Concrete plain encoder used to witness claim C2. -/
def encC2ExPlain : EncoderRNNPlain :=
  ⟨fun _ => [], 2, 1, fun p => (p.1, ([], []))⟩

/-- Concrete two-layer encoder used to refute claim C4: its LSTM returns
the four stacked hidden states (two layers times two directions) required
by the bidirectional contract, with pairwise distinct values. -/
def encC4Ex : EncoderRNN :=
  ⟨fun _ => [0], 1, 1, 2, id,
   fun _ => ([], ([[[1]], [[2]], [[4]], [[8]]], [[[1]], [[2]], [[4]], [[8]]]))⟩

/-- Concrete one-layer encoder used to witness the amended claim C4. -/
def encC4Wit : EncoderRNN :=
  ⟨fun _ => [0], 1, 1, 1, id,
   fun _ => ([], ([[[1]], [[2]]], [[[3]], [[4]]]))⟩

/-- One executed step of a decoding loop: the time index, the input
token vector fed to the decoder at this step, and the logits the decoder
produced at this step. -/
structure StepLog : Type where
  t : ℕ
  fedInput : List ℕ
  logits : Mat

/-- Index of the first maximum entry of a vector: the indices component
of torch max(dim=1) for one batch row. -/
noncomputable def argmaxIdx (v : Vec) : ℕ :=
  (List.range v.length).foldl
    (fun best j => if v.getD best 0 < v.getD j 0 then j else best) 0

/-- outputs[:, t] = predication: for every batch element, overwrite row t
of its output matrix with the logits row produced for it. -/
def writeTime (t : ℕ) (predication : Mat) (outputs : Ten3) : Ten3 :=
  List.zipWith (fun m p => m.set t p) outputs predication

/-- Elementwise product of two rows with broadcasting of a length-1
operand, as torch evaluates src_outputs * attention_distribution on the
trailing axis. -/
def mulVecBroadcast (a b : Vec) : Vec :=
  if b.length = 1 then a.map (fun x => x * b.getD 0 0)
  else if a.length = 1 then b.map (fun y => a.getD 0 0 * y)
  else List.zipWith (· * ·) a b

/-- torch sum over dim 1 of one batch element: the elementwise sum of the
rows of a matrix. -/
def sumRows : Mat → Vec
  | [] => []
  | r :: rs => rs.foldl addVec r

/-- torch.zeros(b, r, c). -/
def zeros3 (b r c : ℕ) : Ten3 :=
  List.replicate b (List.replicate r (List.replicate c 0))

/-- The attention decoder of 02_Seq2SeqAttention/model.py, with
nn.Embedding as row lookup, nn.BatchNorm1d and nn.LSTM as abstract
learned functions, and `linearW`/`linearB` the weight and bias of
self.linear (rnn_dim * 2 → out_dim). -/
structure DecoderAttentionRNN : Type where
  attention : Attention
  embedding : ℕ → Vec
  out_dim : ℕ
  batch_norm : Ten3 → Ten3
  rnn : Ten3 → List Mat × List Mat → Ten3 × (List Mat × List Mat)
  linearW : Mat
  linearB : Vec

/-- DecoderAttentionRNN.forward: embed and unsqueeze the input tokens,
batch-norm, advance the recurrence one step, query the attention scorer
with the encoder outputs and the new decoder output, form the context
vector as the attention-weighted sum of encoder outputs, concatenate the
squeezed decoder output with the context vector and project to vocabulary
logits.  The none case propagates the crash of an invalid method tag. -/
noncomputable def DecoderAttentionRNN.forward (d : DecoderAttentionRNN)
    (src_outputs : Ten3) (tar_input : List ℕ) (last_hidden last_cell : List Mat) :
    Option (Mat × List Mat × List Mat) :=
  let embedded := (tar_input.map d.embedding).map (fun v => [v])
  let embedded2 := d.batch_norm embedded
  let r := d.rnn embedded2 (last_hidden, last_cell)
  match d.attention.forward src_outputs r.1 with
  | none => none
  | some attention_distribution =>
    let temp := List.zipWith (fun sm am => List.zipWith mulVecBroadcast sm am)
      src_outputs attention_distribution
    let context_vector := temp.map sumRows
    let dec_output := r.1.map (fun m => m.headD [])
    let concat := List.zipWith (fun u v => u ++ v) dec_output context_vector
    let predication := concat.map (linear d.linearW d.linearB)
    some (predication, r.2.1, r.2.2)

/-- The choice of the next decoder input at loop step t of the attention
driver (source line input_ = tar_input[:, t] if random.random() <
teacher_forcing_rate else indices), with the random draws injected as the
stream `rnd`, one draw per step. -/
noncomputable def nextInput (rate : ℝ) (rnd : ℕ → ℝ) (tar_input : List (List ℕ))
    (t : ℕ) (predication : Mat) : List ℕ :=
  if rnd t < rate then tar_input.map (fun row => row.getD t 0)
  else predication.map argmaxIdx

/-- The decoding loop of Seq2SeqAttention.forward over t = 1 .. max_len-1
(`k` counts the remaining iterations): run the decoder, write the logits
at the current time index, pick the next input.  The first component logs
the executed steps; the second is the final output tensor when every
decoder call succeeds. -/
noncomputable def seqLoop (d : DecoderAttentionRNN) (enc_output : Ten3)
    (tar_input : List (List ℕ)) (rate : ℝ) (rnd : ℕ → ℝ) :
    ℕ → ℕ → List ℕ → List Mat → List Mat → Ten3 → List StepLog × Option Ten3
  | 0, _t, _input, _h, _c, outputs => ([], some outputs)
  | k + 1, t, input_, h, c, outputs =>
    match DecoderAttentionRNN.forward d enc_output input_ h c with
    | none => ([], none)
    | some r =>
      let rest := seqLoop d enc_output tar_input rate rnd k (t + 1)
        (nextInput rate rnd tar_input t r.1) r.2.1 r.2.2 (writeTime t r.1 outputs)
      (⟨t, input_, r.1⟩ :: rest.1, rest.2)

/-- The model of 02_Seq2SeqAttention/model.py. -/
structure Seq2SeqAttention : Type where
  encoder : EncoderRNN
  decoder : DecoderAttentionRNN

/-- Seq2SeqAttention.forward together with its step log: run the encoder,
allocate the zero output tensor of shape (batch_size, max_len, out_dim),
seed the input with target column 0, and loop over t = 1 .. max_len-1. -/
noncomputable def Seq2SeqAttention.run (m : Seq2SeqAttention)
    (src_input : List (List ℕ)) (src_length : List ℕ)
    (tar_input : List (List ℕ)) (teacher_forcing_rate : ℝ) (rnd : ℕ → ℝ) :
    List StepLog × Option Ten3 :=
  match (m.encoder.forward src_input src_length).2 with
  | Except.error _ => ([], none)
  | Except.ok enc =>
    let batch_size := tar_input.length
    let max_len := colCount tar_input
    let outputs := zeros3 batch_size max_len m.decoder.out_dim
    let input_ := tar_input.map (fun row => row.getD 0 0)
    seqLoop m.decoder enc.1 tar_input teacher_forcing_rate rnd
      (max_len - 1) 1 input_ enc.2.1 enc.2.2 outputs

/-- Seq2SeqAttention.forward: the assembled output score tensor. -/
noncomputable def Seq2SeqAttention.forward (m : Seq2SeqAttention)
    (src_input : List (List ℕ)) (src_length : List ℕ)
    (tar_input : List (List ℕ)) (teacher_forcing_rate : ℝ) (rnd : ℕ → ℝ) :
    Option Ten3 :=
  (m.run src_input src_length tar_input teacher_forcing_rate rnd).2

/-- The plain decoder of 01_Seq2Seq/model.py, with nn.Embedding as row
lookup, nn.LSTM as an abstract learned function, and `outW`/`outB` the
weight and bias of self.out (rnn_dim → out_dim). -/
structure DecoderRNN : Type where
  embedding : ℕ → Vec
  rnn_dim : ℕ
  out_dim : ℕ
  n_layer : ℕ
  rnn : Ten3 → List Mat × List Mat → Ten3 × (List Mat × List Mat)
  outW : Mat
  outB : Vec

/-- DecoderRNN.forward: embed and unsqueeze the input tokens, advance the
recurrence one step, squeeze, project to vocabulary logits. -/
def DecoderRNN.forward (d : DecoderRNN) (inputs : List ℕ)
    (last_hidden last_cell : List Mat) : Mat × List Mat × List Mat :=
  let embedded := (inputs.map d.embedding).map (fun v => [v])
  let r := d.rnn embedded (last_hidden, last_cell)
  let output := r.1.map (fun m => m.headD [])
  let predication := output.map (linear d.outW d.outB)
  (predication, r.2.1, r.2.2)

/-- The decoding loop of Seq2Seq.forward: the next input is always the
argmax of the logits just produced; there is no teacher-forcing draw. -/
noncomputable def seq2seqLoop (d : DecoderRNN) :
    ℕ → ℕ → List ℕ → List Mat → List Mat → Ten3 → List StepLog × Ten3
  | 0, _t, _input, _h, _c, outputs => ([], outputs)
  | k + 1, t, input_, h, c, outputs =>
    let r := DecoderRNN.forward d input_ h c
    let rest := seq2seqLoop d k (t + 1) (r.1.map argmaxIdx) r.2.1 r.2.2
      (writeTime t r.1 outputs)
    (⟨t, input_, r.1⟩ :: rest.1, rest.2)

/-- The model of 01_Seq2Seq/model.py. -/
structure Seq2Seq : Type where
  encoder : EncoderRNNPlain
  decoder : DecoderRNN

/-- Seq2Seq.forward together with its step log. -/
noncomputable def Seq2Seq.run (m : Seq2Seq) (src_input : List (List ℕ))
    (src_length : List ℕ) (trg_input : List (List ℕ)) :
    List StepLog × Option Ten3 :=
  match (m.encoder.forward src_input src_length).2 with
  | Except.error _ => ([], none)
  | Except.ok st =>
    let batch_size := trg_input.length
    let max_len := colCount trg_input
    let outputs := zeros3 batch_size max_len m.decoder.out_dim
    let input_ := trg_input.map (fun row => row.getD 0 0)
    let r := seq2seqLoop m.decoder (max_len - 1) 1 input_ st.1 st.2 outputs
    (r.1, some r.2)

/-- Seq2Seq.forward: the assembled output score tensor. -/
noncomputable def Seq2Seq.forward (m : Seq2Seq) (src_input : List (List ℕ))
    (src_length : List ℕ) (trg_input : List (List ℕ)) : Option Ten3 :=
  (m.run src_input src_length trg_input).2

/-- Claim C3: constructing the attention scorer with a method string
outside dot, general, concat fails with the invalid-configuration error
at construction time, and construction with any of the three valid
method strings succeeds. -/
theorem attention_init_method_check (method : String) (rnn_dim : ℕ)
    (nnW : Mat) (nnB : Vec) (vW : Mat) (vB : Vec) :
    (method ∉ ["dot", "general", "concat"] →
      Attention.init method rnn_dim nnW nnB vW vB =
        Except.error ModelError.invalidConfiguration) ∧
    (method ∈ ["dot", "general", "concat"] →
      Attention.init method rnn_dim nnW nnB vW vB =
        Except.ok ⟨method, rnn_dim, nnW, nnB, vW, vB⟩) := by
  constructor <;> intro h <;> simp [Attention.init, h]

/-- Witness for claim C3 at the concrete tags luong (rejected) and dot
(accepted). -/
theorem attention_init_method_check_witness :
    (Attention.init "luong" 4 [] [] [] [] =
      Except.error ModelError.invalidConfiguration) ∧
    (Attention.init "dot" 4 [] [] [] [] =
      Except.ok ⟨"dot", 4, [], [], [], []⟩) :=
  ⟨(attention_init_method_check "luong" 4 [] [] [] []).1 (by decide),
   (attention_init_method_check "dot" 4 [] [] [] []).2 (by decide)⟩

/-- Claim C2: for every length vector that is not sorted in descending
order, the forward of both encoders surfaces the invalid-input error
(the sortedness validation pack_padded_sequence performs with its default
enforce_sorted=True) and the recurrence stage never executes. -/
theorem encoder_unsorted_lengths_error (e : EncoderRNN) (ep : EncoderRNNPlain)
    (inputs inputsP : List (List ℕ)) (length : List ℕ)
    (h : sortedDescendingB length = false) :
    ((e.forward inputs length).2 = Except.error ModelError.invalidInput ∧
      EncStep.rnn ∉ (e.forward inputs length).1) ∧
    ((ep.forward inputsP length).2 = Except.error ModelError.invalidInput ∧
      EncStep.rnn ∉ (ep.forward inputsP length).1) := by
  simp [EncoderRNN.forward, EncoderRNNPlain.forward, pack_padded_sequence, h]

/-- Witness for claim C2 at the concrete ascending length vector [1, 2]. -/
theorem encoder_unsorted_lengths_error_witness :
    ((encC2Ex.forward [[0], [1]] [1, 2]).2 = Except.error ModelError.invalidInput ∧
      EncStep.rnn ∉ (encC2Ex.forward [[0], [1]] [1, 2]).1) ∧
    ((encC2ExPlain.forward [[0], [1]] [1, 2]).2 = Except.error ModelError.invalidInput ∧
      EncStep.rnn ∉ (encC2ExPlain.forward [[0], [1]] [1, 2]).1) :=
  encoder_unsorted_lengths_error encC2Ex encC2ExPlain [[0], [1]] [[0], [1]] [1, 2]
    (by decide)

/-- Counterexample to claim C4: with n_layer = 2 the slice-and-add
hidden[:1] + hidden[1:] broadcasts the first stacked state over the
remaining three, so the hidden stack handed to the decoder has leading
dimension 3, not n_layer = 2. -/
theorem encoder_bidirectional_collapse_counterexample :
    encC4Ex.n_layer = 2 ∧
    (encC4Ex.forward [[0]] [1]).2.map (fun r => r.2.1.length) = Except.ok 3 ∧
    (Except.ok 3 : Except ModelError ℕ) ≠ Except.ok encC4Ex.n_layer := by
  refine ⟨rfl, rfl, ?_⟩
  intro h
  simp [encC4Ex] at h

/-- Claim C4 (amended): for a single-layer bidirectional encoder the
forward and backward hidden and cell states are collapsed by elementwise
summation into a stack of leading dimension 1, and each per-position
output row of length 2*rnn_dim is collapsed by elementwise summation of
its two halves to length rnn_dim; for n_layer at least 2 the broadcast
slice-and-add instead produces 2*n_layer - 1 stacked states. -/
theorem encoder_bidirectional_collapse_single_layer
    (e : EncoderRNN) (inputs : List (List ℕ)) (length : List ℕ)
    (out : Ten3) (h0 h1 c0 c1 : Mat)
    (_hn : e.n_layer = 1)
    (hs : sortedDescendingB length = true)
    (hr : e.rnn (e.batch_norm (inputs.map (fun row => row.map e.embedding)), length)
          = (out, ([h0, h1], [c0, c1]))) :
    (e.forward inputs length).2 =
      Except.ok
        (out.map (fun m => m.map (fun row =>
          addVec (row.take e.rnn_dim) (row.drop e.rnn_dim))),
         [addMat h0 h1], [addMat c0 c1]) ∧
    (∀ row : Vec, row.length = 2 * e.rnn_dim →
      (addVec (row.take e.rnn_dim) (row.drop e.rnn_dim)).length = e.rnn_dim ∧
      ∀ j : ℕ, j < e.rnn_dim →
        (addVec (row.take e.rnn_dim) (row.drop e.rnn_dim)).getD j 0 =
          row.getD j 0 + row.getD (e.rnn_dim + j) 0) := by
  constructor
  · simp [EncoderRNN.forward, pack_padded_sequence, pad_packed_sequence, hs, hr,
      addBroadcast]
  · intro row hrow
    have hlen : (addVec (row.take e.rnn_dim) (row.drop e.rnn_dim)).length = e.rnn_dim := by
      simp [addVec, hrow]
      omega
    refine ⟨hlen, ?_⟩
    intro j hj
    have hj1 : j < (row.take e.rnn_dim).length := by
      simp [hrow]; omega
    have hj2 : j < (row.drop e.rnn_dim).length := by
      simp [hrow]; omega
    have hjz : j < (addVec (row.take e.rnn_dim) (row.drop e.rnn_dim)).length := by
      rw [hlen]; exact hj
    rw [List.getD_eq_getElem _ _ hjz]
    have hja : j < row.length := by omega
    have hjb : e.rnn_dim + j < row.length := by omega
    rw [List.getD_eq_getElem _ _ hja, List.getD_eq_getElem _ _ hjb]
    simp [addVec, List.getElem_zipWith, List.getElem_take, List.getElem_drop]

/-- Witness for the amended claim C4 at a concrete single-layer encoder. -/
theorem encoder_bidirectional_collapse_single_layer_witness :
    (encC4Wit.forward [[0]] [1]).2 =
      Except.ok ([], [addMat [[1]] [[2]]], [addMat [[3]] [[4]]]) :=
  (encoder_bidirectional_collapse_single_layer encC4Wit [[0]] [1]
    [] [[1]] [[2]] [[3]] [[4]] rfl (by decide) rfl).1

theorem mem_zipWith {α β γ : Type} (f : α → β → γ) (as : List α) (bs : List β)
    (c : γ) (hc : c ∈ List.zipWith f as bs) :
    ∃ a b, a ∈ as ∧ b ∈ bs ∧ c = f a b := by
  induction as generalizing bs with
  | nil => simp at hc
  | cons a as ih =>
    cases bs with
    | nil => simp at hc
    | cons b bs =>
      rw [List.zipWith_cons_cons] at hc
      rcases List.mem_cons.mp hc with h | h
      · exact ⟨a, b, List.mem_cons_self a as, List.mem_cons_self b bs, h⟩
      · rcases ih bs h with ⟨a', b', ha, hb, hab⟩
        exact ⟨a', b', List.mem_cons_of_mem a ha, List.mem_cons_of_mem b hb, hab⟩

theorem getD_mem_or {α : Type} (l : List α) (n : ℕ) (d : α) :
    l.getD n d ∈ l ∨ l.getD n d = d := by
  by_cases h : n < l.length
  · left
    rw [List.getD_eq_getElem l d h]
    exact List.getElem_mem h
  · right
    exact List.getD_eq_default l d (le_of_not_lt h)

theorem map_getD_range {α : Type} (d : α) (l : List α) :
    (List.range l.length).map (fun j => l.getD j d) = l := by
  induction l with
  | nil => simp
  | cons a t ih =>
    rw [List.length_cons, List.range_succ_eq_map, List.map_cons, List.map_map]
    simp only [Function.comp_def, List.getD_cons_zero, List.getD_cons_succ]
    rw [ih]

theorem length_softmax (xs : Vec) : (softmax xs).length = xs.length := by
  simp [softmax]

theorem softmax_nonneg (xs : Vec) (y : ℝ) (hy : y ∈ softmax xs) : 0 ≤ y := by
  rcases List.mem_map.mp hy with ⟨x, _hx, rfl⟩
  refine div_nonneg (le_of_lt (Real.exp_pos x)) (List.sum_nonneg ?_)
  intro z hz
  rcases List.mem_map.mp hz with ⟨w, _hw, rfl⟩
  exact le_of_lt (Real.exp_pos w)

theorem softmax_sum (xs : Vec) (hne : xs ≠ []) : (softmax xs).sum = 1 := by
  have hpos : 0 < (xs.map Real.exp).sum := by
    refine List.sum_pos _ ?_ ?_
    · intro z hz
      rcases List.mem_map.mp hz with ⟨w, _hw, rfl⟩
      exact Real.exp_pos w
    · simpa using hne
  have hsm : softmax xs = xs.map (fun x => Real.exp x * ((xs.map Real.exp).sum)⁻¹) := by
    simp [softmax, div_eq_mul_inv]
  rw [hsm, List.sum_map_mul_right]
  exact mul_inv_cancel₀ (ne_of_gt hpos)

theorem colCount_eq {α : Type} (m : List (List α)) (r c : ℕ)
    (h : mshape m r c) (hr : 0 < r) : colCount m = c := by
  rcases m with _ | ⟨row, rest⟩
  · rcases h with ⟨hl, _⟩
    simp at hl
    omega
  · exact h.2 row (List.mem_cons_self row rest)

theorem transposeMat_shape (m : Mat) (r c : ℕ) (h : mshape m r c) (hr : 0 < r) :
    mshape (transposeMat m) c r := by
  have hc := colCount_eq m r c h hr
  constructor
  · simp [transposeMat, hc]
  · intro row hrow
    rcases List.mem_map.mp hrow with ⟨j, _hj, rfl⟩
    simp [h.1]

theorem linear_length (W : Mat) (b : Vec) (x : Vec) :
    (linear W b x).length = min W.length b.length := by
  simp [linear]

theorem softmaxMat_col (sm : Mat) (S : ℕ) (hS : 0 < S) (h : mshape sm S 1) :
    mshape (softmaxMat sm) S 1 ∧
    (∀ r ∈ softmaxMat sm, ∀ x ∈ r, 0 ≤ x) ∧
    ((softmaxMat sm).map List.sum).sum = 1 := by
  have hc : colCount sm = 1 := colCount_eq sm S 1 h hS
  have ht : transposeMat sm = [sm.map (fun row => row.getD 0 0)] := by
    unfold transposeMat
    rw [hc]
    rfl
  have hys : (softmax (sm.map (fun row => row.getD 0 0))).length = S := by
    rw [length_softmax, List.length_map, h.1]
  have hcc : colCount [softmax (sm.map (fun row => row.getD 0 0))] = S := by
    simpa [colCount] using hys
  have ht2 : softmaxMat sm =
      (List.range S).map
        (fun j => [(softmax (sm.map (fun row => row.getD 0 0))).getD j 0]) := by
    unfold softmaxMat
    rw [ht, List.map_cons, List.map_nil]
    unfold transposeMat
    rw [hcc]
    simp only [List.map_cons, List.map_nil]
  have hcolne : sm.map (fun row => row.getD 0 0) ≠ [] := by
    have hl : sm.length = S := h.1
    intro hnil
    have hsm : sm = [] := List.map_eq_nil_iff.mp hnil
    rw [hsm] at hl
    simp at hl
    omega
  refine ⟨⟨?_, ?_⟩, ?_, ?_⟩
  · simp [ht2]
  · intro row hrow
    rw [ht2] at hrow
    rcases List.mem_map.mp hrow with ⟨j, _hj, rfl⟩
    rfl
  · intro r hr x hx
    rw [ht2] at hr
    rcases List.mem_map.mp hr with ⟨j, _hj, rfl⟩
    rcases List.mem_singleton.mp hx with rfl
    rcases getD_mem_or (softmax (sm.map (fun row => row.getD 0 0))) j 0 with hmem | hdef
    · exact softmax_nonneg _ _ hmem
    · rw [hdef]
  · rw [ht2, List.map_map]
    have hmap : (List.range S).map
        (List.sum ∘ fun j => [(softmax (sm.map (fun row => row.getD 0 0))).getD j 0]) =
        (List.range S).map
          (fun j => (softmax (sm.map (fun row => row.getD 0 0))).getD j 0) := by
      simp [Function.comp_def]
    rw [hmap, ← hys, map_getD_range]
    exact softmax_sum _ hcolne

theorem softmaxDim1_distribution (scores : Ten3) (B S : ℕ)
    (hlen : scores.length = B) (hmem : ∀ sm ∈ scores, mshape sm S 1) (hS : 0 < S) :
    tshape (softmaxDim1 scores) B S 1 ∧
    ∀ m ∈ softmaxDim1 scores,
      (∀ r ∈ m, ∀ x ∈ r, 0 ≤ x) ∧ (m.map List.sum).sum = 1 := by
  refine ⟨⟨by simp [softmaxDim1, hlen], ?_⟩, ?_⟩
  · intro m hm
    rcases List.mem_map.mp hm with ⟨sm, hsm, rfl⟩
    exact (softmaxMat_col sm S hS (hmem sm hsm)).1
  · intro m hm
    rcases List.mem_map.mp hm with ⟨sm, hsm, rfl⟩
    rcases softmaxMat_col sm S hS (hmem sm hsm) with ⟨_, hnn, hsum⟩
    exact ⟨hnn, hsum⟩

theorem matMul_target_shape (a b : Mat) (S D : ℕ) (ha : a.length = S)
    (hb : mshape b D 1) (hD : 0 < D) : mshape (matMul a b) S 1 := by
  have htb : mshape (transposeMat b) 1 D := transposeMat_shape b D 1 hb hD
  constructor
  · simp [matMul, ha]
  · intro row hrow
    rcases List.mem_map.mp hrow with ⟨r0, _hr0, rfl⟩
    simp [htb.1]

theorem bmm_target_shape (src tarT : Ten3) (B S D : ℕ)
    (hsrcLen : src.length = B) (hsrcMem : ∀ m ∈ src, m.length = S)
    (htLen : tarT.length = B) (htMem : ∀ tm ∈ tarT, mshape tm D 1) (hD : 0 < D) :
    (bmm src tarT).length = B ∧ ∀ sm ∈ bmm src tarT, mshape sm S 1 := by
  constructor
  · simp [bmm, hsrcLen, htLen]
  · intro sm hsm
    rcases mem_zipWith matMul src tarT sm hsm with ⟨m, tm, hm, htm, rfl⟩
    exact matMul_target_shape m tm S D (hsrcMem m hm) (htMem tm htm) hD

theorem concat_scores_shape (a : Attention) (src tarT : Ten3) (B S D : ℕ)
    (hsrc : tshape src B S D)
    (htLen : tarT.length = B) (htMem : ∀ tm ∈ tarT, mshape tm D 1)
    (hS : 0 < S) (hD : 0 < D) (hvW : a.vW.length = 1) (hvB : a.vB.length = 1) :
    (a.concat src tarT).length = B ∧ ∀ sm ∈ a.concat src tarT, mshape sm S 1 := by
  have hdim2 : src ≠ [] → dim2 (src.map transposeMat) = S := by
    intro hne
    rcases src with _ | ⟨m0, rest⟩
    · exact absurd rfl hne
    · have h0 : mshape (transposeMat m0) D S :=
        transposeMat_shape m0 S D (hsrc.2 m0 (List.mem_cons_self m0 rest)) hS
      simpa [dim2] using colCount_eq (transposeMat m0) D S h0 hD
  constructor
  · simp [Attention.concat, hsrc.1, htLen]
  · intro sm hsm
    simp only [Attention.concat] at hsm
    rcases List.mem_map.mp hsm with ⟨m2, hm2, rfl⟩
    rcases List.mem_map.mp hm2 with ⟨m1, hm1, rfl⟩
    rcases List.mem_map.mp hm1 with ⟨hm0, hhm0, rfl⟩
    rcases List.mem_map.mp hhm0 with ⟨hv, hhv, rfl⟩
    rcases mem_zipWith _ _ _ _ hhv with ⟨p, e, hp, he, rfl⟩
    rcases List.mem_map.mp hp with ⟨m, hm, rfl⟩
    rcases List.mem_map.mp he with ⟨tm, htm, rfl⟩
    have hmS : mshape m S D := hsrc.2 m hm
    have hp2 : mshape (transposeMat m) D S := transposeMat_shape m S D hmS hS
    have htm2 : mshape tm D 1 := htMem tm htm
    have hsval : dim2 (src.map transposeMat) = S := hdim2 (List.ne_nil_of_mem hm)
    have he2 : mshape
        (tm.map (fun row => List.replicate (dim2 (src.map transposeMat)) (row.getD 0 0)))
        D S := by
      constructor
      · rw [List.length_map]
        exact htm2.1
      · intro row hrow
        rcases List.mem_map.mp hrow with ⟨r0, _h0, rfl⟩
        rw [List.length_replicate]
        exact hsval
    have happ : mshape
        (transposeMat m ++
          tm.map (fun row => List.replicate (dim2 (src.map transposeMat)) (row.getD 0 0)))
        (D + D) S := by
      constructor
      · simp [hp2.1, htm2.1]
      · intro row hrow
        rcases List.mem_append.mp hrow with hrr | hrr
        · exact hp2.2 row hrr
        · exact he2.2 row hrr
    have htr := transposeMat_shape _ (D + D) S happ (by omega)
    constructor
    · rw [List.length_map, List.length_map, List.length_map]
      exact htr.1
    · intro row hrow
      rcases List.mem_map.mp hrow with ⟨r2, _h2, rfl⟩
      rcases List.mem_map.mp _h2 with ⟨r3, _h3, rfl⟩
      rw [linear_length, hvW, hvB]
      exact Nat.min_self 1

/-- Claim C1: for every valid attention method (dot, general, concat) and
every (batch, seq_len, dim) encoder-outputs tensor and (batch, 1, dim)
decoder-state tensor, Attention.forward returns a (batch, seq_len, 1)
tensor of non-negative weights whose entries sum to 1 over the full
seq_len axis for every batch element; the sum runs over all seq_len
positions, padding included, since no mask is applied. -/
theorem attention_forward_distribution (a : Attention) (src tar : Ten3)
    (B S D : ℕ)
    (hmethod : a.method ∈ ["dot", "general", "concat"])
    (hsrc : tshape src B S D) (htar : tshape tar B 1 D)
    (hS : 0 < S) (hD : 0 < D)
    (hconcat : a.method = "concat" → a.vW.length = 1 ∧ a.vB.length = 1) :
    ∃ d, a.forward src tar = some d ∧ tshape d B S 1 ∧
      ∀ m ∈ d, (∀ r ∈ m, ∀ x ∈ r, 0 ≤ x) ∧ (m.map List.sum).sum = 1 := by
  have htLen : (tar.map transposeMat).length = B := by simp [htar.1]
  have htMem : ∀ tm ∈ tar.map transposeMat, mshape tm D 1 := by
    intro tm htm
    rcases List.mem_map.mp htm with ⟨t0, ht0, rfl⟩
    exact transposeMat_shape t0 1 D (htar.2 t0 ht0) one_pos
  simp only [List.mem_cons, List.not_mem_nil, or_false] at hmethod
  rcases hmethod with h | h | h
  · have hscores := bmm_target_shape src (tar.map transposeMat) B S D hsrc.1
      (fun m hm => (hsrc.2 m hm).1) htLen htMem hD
    rcases softmaxDim1_distribution (bmm src (tar.map transposeMat)) B S
      hscores.1 hscores.2 hS with ⟨hsh, hprop⟩
    exact ⟨_, by simp [Attention.forward, Attention.dot, h], hsh, hprop⟩
  · have hsrcLen : (src.map (fun m => m.map (linear a.nnW a.nnB))).length = B := by
      simp [hsrc.1]
    have hsrcMem : ∀ m ∈ src.map (fun m => m.map (linear a.nnW a.nnB)),
        m.length = S := by
      intro m hm
      rcases List.mem_map.mp hm with ⟨m0, hm0, rfl⟩
      simp [(hsrc.2 m0 hm0).1]
    have hscores := bmm_target_shape
      (src.map (fun m => m.map (linear a.nnW a.nnB))) (tar.map transposeMat)
      B S D hsrcLen hsrcMem htLen htMem hD
    rcases softmaxDim1_distribution _ B S hscores.1 hscores.2 hS with ⟨hsh, hprop⟩
    exact ⟨_, by simp [Attention.forward, Attention.general, h], hsh, hprop⟩
  · rcases hconcat h with ⟨hvW, hvB⟩
    have hscores := concat_scores_shape a src (tar.map transposeMat) B S D
      hsrc htLen htMem hS hD hvW hvB
    rcases softmaxDim1_distribution _ B S hscores.1 hscores.2 hS with ⟨hsh, hprop⟩
    exact ⟨_, by simp [Attention.forward, h], hsh, hprop⟩

/-- Witness for claim C1: the dot scorer on a concrete (1, 1, 1) input. -/
theorem attention_forward_distribution_witness :
    ∃ d, Attention.forward ⟨"dot", 1, [], [], [], []⟩ [[[1]]] [[[1]]] = some d ∧
      tshape d 1 1 1 ∧
      ∀ m ∈ d, (∀ r ∈ m, ∀ x ∈ r, 0 ≤ x) ∧ (m.map List.sum).sum = 1 :=
  attention_forward_distribution ⟨"dot", 1, [], [], [], []⟩ [[[1]]] [[[1]]] 1 1 1
    (by decide) (by decide) (by decide) (by decide) (by decide) (by decide)

theorem seqLoop_head (d : DecoderAttentionRNN) (enc : Ten3)
    (tar : List (List ℕ)) (rate : ℝ) (rnd : ℕ → ℝ) (k t : ℕ) (inp : List ℕ)
    (h c : List Mat) (outs : Ten3) (e : StepLog)
    (he : (seqLoop d enc tar rate rnd k t inp h c outs).1.head? = some e) :
    e.t = t ∧ e.fedInput = inp := by
  cases k with
  | zero => simp [seqLoop] at he
  | succ k =>
    simp only [seqLoop] at he
    split at he
    · simp at he
    · simp only [List.head?_cons, Option.some.injEq] at he
      subst he
      exact ⟨rfl, rfl⟩

theorem seqLoop_chain (d : DecoderAttentionRNN) (enc : Ten3)
    (tar : List (List ℕ)) (rate : ℝ) (rnd : ℕ → ℝ)
    (R : StepLog → StepLog → Prop)
    (hR : ∀ t inp pred pred2,
      R ⟨t, inp, pred⟩ ⟨t + 1, nextInput rate rnd tar t pred, pred2⟩) :
    ∀ k t inp h c outs,
      List.Chain' R (seqLoop d enc tar rate rnd k t inp h c outs).1 := by
  intro k
  induction k with
  | zero =>
    intro t inp h c outs
    simp [seqLoop]
  | succ k ih =>
    intro t inp h c outs
    simp only [seqLoop]
    split
    · simp
    · rename_i r _
      rw [List.chain'_cons']
      constructor
      · intro e he
        rw [Option.mem_def] at he
        obtain ⟨ht, hf⟩ := seqLoop_head d enc tar rate rnd k (t + 1)
          (nextInput rate rnd tar t r.1) r.2.1 r.2.2 (writeTime t r.1 outs) e he
        obtain ⟨et, ef, el⟩ := e
        simp only at ht hf
        subst ht
        subst hf
        exact hR t inp r.1 el
      · exact ih (t + 1) _ _ _ _

theorem seq2seqLoop_head (d : DecoderRNN) (k t : ℕ) (inp : List ℕ)
    (h c : List Mat) (outs : Ten3) (e : StepLog)
    (he : (seq2seqLoop d k t inp h c outs).1.head? = some e) :
    e.t = t ∧ e.fedInput = inp := by
  cases k with
  | zero => simp [seq2seqLoop] at he
  | succ k =>
    simp only [seq2seqLoop, List.head?_cons, Option.some.injEq] at he
    subst he
    exact ⟨rfl, rfl⟩

theorem seq2seqLoop_chain (d : DecoderRNN) (R : StepLog → StepLog → Prop)
    (hR : ∀ t inp pred pred2,
      R ⟨t, inp, pred⟩ ⟨t + 1, pred.map argmaxIdx, pred2⟩) :
    ∀ k t inp h c outs,
      List.Chain' R (seq2seqLoop d k t inp h c outs).1 := by
  intro k
  induction k with
  | zero =>
    intro t inp h c outs
    simp [seq2seqLoop]
  | succ k ih =>
    intro t inp h c outs
    simp only [seq2seqLoop]
    rw [List.chain'_cons']
    constructor
    · intro e he
      rw [Option.mem_def] at he
      obtain ⟨ht, hf⟩ := seq2seqLoop_head d k (t + 1)
        ((DecoderRNN.forward d inp h c).1.map argmaxIdx)
        (DecoderRNN.forward d inp h c).2.1 (DecoderRNN.forward d inp h c).2.2
        (writeTime t (DecoderRNN.forward d inp h c).1 outs) e he
      obtain ⟨et, ef, el⟩ := e
      simp only at ht hf
      subst ht
      subst hf
      exact hR t inp (DecoderRNN.forward d inp h c).1 el
    · exact ih (t + 1) _ _ _ _

/-- Claim C6: with a zero teacher-forcing rate (the random source never
draws below the rate since its draws are non-negative), at every step of
the attention driver the input fed to the decoder at the following step
equals the argmax, over the vocabulary axis, of the logits just produced,
for every batch element. -/
theorem attention_driver_greedy_when_rate_zero (m : Seq2SeqAttention)
    (src : List (List ℕ)) (srcLen : List ℕ) (tar : List (List ℕ))
    (rate : ℝ) (rnd : ℕ → ℝ)
    (hrate : rate = 0) (hrnd : ∀ k, 0 ≤ rnd k) :
    List.Chain' (fun a b => b.fedInput = a.logits.map argmaxIdx)
      (m.run src srcLen tar rate rnd).1 := by
  rw [Seq2SeqAttention.run]
  split
  · simp
  · apply seqLoop_chain
    intro t inp pred pred2
    simp only [nextInput, hrate]
    rw [if_neg (not_lt.mpr (hrnd t))]

/-- Claim C7: with teacher-forcing rate 1.0 (the random source always
draws below 1), at every step t of the attention driver the input fed to
the decoder at the following step equals the ground-truth target column
at time index t, regardless of the logits produced. -/
theorem attention_driver_teacher_forcing_when_rate_one (m : Seq2SeqAttention)
    (src : List (List ℕ)) (srcLen : List ℕ) (tar : List (List ℕ))
    (rate : ℝ) (rnd : ℕ → ℝ)
    (hrate : rate = 1) (hrnd : ∀ k, rnd k < 1) :
    List.Chain' (fun a b => b.fedInput = tar.map (fun row => row.getD a.t 0))
      (m.run src srcLen tar rate rnd).1 := by
  rw [Seq2SeqAttention.run]
  split
  · simp
  · apply seqLoop_chain
    intro t inp pred pred2
    simp only [nextInput, hrate]
    rw [if_pos (hrnd t)]

/-- Claim C10: the teacher-forcing decision of the attention driver is
drawn once per time step and applies to the whole batch: between any two
consecutive steps, the fed input is either the full ground-truth target
column or the full argmax vector of the previous logits, never a
per-element mixture. -/
theorem attention_driver_batchwise_choice (m : Seq2SeqAttention)
    (src : List (List ℕ)) (srcLen : List ℕ) (tar : List (List ℕ))
    (rate : ℝ) (rnd : ℕ → ℝ) :
    List.Chain'
      (fun a b => b.fedInput = tar.map (fun row => row.getD a.t 0) ∨
        b.fedInput = a.logits.map argmaxIdx)
      (m.run src srcLen tar rate rnd).1 := by
  rw [Seq2SeqAttention.run]
  split
  · simp
  · apply seqLoop_chain
    intro t inp pred pred2
    simp only [nextInput]
    split
    · left
      rfl
    · right
      rfl

/-- Claim C8: the plain driver makes no stochastic choice: between any
two consecutive steps the input fed to the decoder is always the argmax
of the logits just produced (the loop reads no target column and rolls no
teacher-forcing draw). -/
theorem plain_driver_always_argmax (m : Seq2Seq) (src : List (List ℕ))
    (srcLen : List ℕ) (trg : List (List ℕ)) :
    List.Chain' (fun a b => b.fedInput = a.logits.map argmaxIdx)
      (m.run src srcLen trg).1 := by
  rw [Seq2Seq.run]
  split
  · simp
  · apply seq2seqLoop_chain
    intro t inp pred pred2
    rfl

/-- Witness for claim C6 at rate 0 with the constant-zero random source. -/
theorem attention_driver_greedy_when_rate_zero_witness :
    List.Chain' (fun a b => b.fedInput = a.logits.map argmaxIdx)
      ((Seq2SeqAttention.run ⟨encC2Ex,
          ⟨⟨"dot", 2, [], [], [], []⟩, fun _ => [0], 3, id,
            fun x s => (x, s), [], []⟩⟩
        [[0]] [1] [[0, 1], [2, 3]] 0 (fun _ => 0)).1) :=
  attention_driver_greedy_when_rate_zero _ [[0]] [1] [[0, 1], [2, 3]] 0
    (fun _ => 0) rfl (fun _ => le_refl 0)

/-- Witness for claim C7 at rate 1 with the constant-zero random source. -/
theorem attention_driver_teacher_forcing_when_rate_one_witness :
    List.Chain'
      (fun a b => b.fedInput = [[0, 1], [2, 3]].map (fun row => row.getD a.t 0))
      ((Seq2SeqAttention.run ⟨encC2Ex,
          ⟨⟨"dot", 2, [], [], [], []⟩, fun _ => [0], 3, id,
            fun x s => (x, s), [], []⟩⟩
        [[0]] [1] [[0, 1], [2, 3]] 1 (fun _ => 0)).1) :=
  attention_driver_teacher_forcing_when_rate_one _ [[0]] [1] [[0, 1], [2, 3]] 1
    (fun _ => 0) rfl (fun _ => zero_lt_one)

theorem getD_zero_set {α : Type} (l : List α) (i : ℕ) (a : α) (d : α)
    (hi : i ≠ 0) : (l.set i a).getD 0 d = l.getD 0 d := by
  cases l with
  | nil => simp
  | cons x xs =>
    cases i with
    | zero => exact absurd rfl hi
    | succ n => rfl

theorem seqLoop_keeps_zero_row (d : DecoderAttentionRNN) (enc : Ten3)
    (tar : List (List ℕ)) (rate : ℝ) (rnd : ℕ → ℝ) (z : Vec) :
    ∀ k t inp h c outs, 1 ≤ t → (∀ m ∈ outs, m.getD 0 [] = z) →
      ∀ out, (seqLoop d enc tar rate rnd k t inp h c outs).2 = some out →
        ∀ m ∈ out, m.getD 0 [] = z := by
  intro k
  induction k with
  | zero =>
    intro t inp h c outs ht hz out hout
    simp only [seqLoop, Option.some.injEq] at hout
    subst hout
    exact hz
  | succ k ih =>
    intro t inp h c outs ht hz out hout
    simp only [seqLoop] at hout
    split at hout
    · simp at hout
    · rename_i r _
      refine ih (t + 1) _ _ _ _ (by omega) ?_ out hout
      intro m hm
      rcases mem_zipWith _ _ _ _ hm with ⟨m0, p, hm0, _hp, rfl⟩
      rw [getD_zero_set m0 t p [] (by omega)]
      exact hz m0 hm0

theorem seq2seqLoop_keeps_zero_row (d : DecoderRNN) (z : Vec) :
    ∀ k t inp h c outs, 1 ≤ t → (∀ m ∈ outs, m.getD 0 [] = z) →
      ∀ m ∈ (seq2seqLoop d k t inp h c outs).2, m.getD 0 [] = z := by
  intro k
  induction k with
  | zero =>
    intro t inp h c outs ht hz
    simpa [seq2seqLoop] using hz
  | succ k ih =>
    intro t inp h c outs ht hz
    simp only [seq2seqLoop]
    refine ih (t + 1) _ _ _ _ (by omega) ?_
    intro m hm
    rcases mem_zipWith _ _ _ _ hm with ⟨m0, p, hm0, _hp, rfl⟩
    rw [getD_zero_set m0 t p [] (by omega)]
    exact hz m0 hm0

theorem zeros3_zero_row (b r c : ℕ) (hr : 0 < r) :
    ∀ m ∈ zeros3 b r c, m.getD 0 [] = List.replicate c 0 := by
  intro m hm
  have hm2 := List.eq_of_mem_replicate hm
  subst hm2
  cases r with
  | zero => omega
  | succ n => rfl

/-- Claim C5: for every batch element and every configuration, in both
architectures, the output score tensor the driver returns keeps the zero
vector at time index 0: the loop writes logits only at indices 1 through
max_len - 1. -/
theorem output_time_zero_is_zero (ma : Seq2SeqAttention) (mp : Seq2Seq)
    (src srcP : List (List ℕ)) (srcLen srcLenP : List ℕ)
    (tar : List (List ℕ)) (rate : ℝ) (rnd : ℕ → ℝ)
    (hL : 0 < colCount tar) :
    ((ma.forward src srcLen tar rate rnd).elim True (fun out =>
      ∀ m ∈ out, m.getD 0 [] = List.replicate ma.decoder.out_dim 0)) ∧
    ((mp.forward srcP srcLenP tar).elim True (fun out =>
      ∀ m ∈ out, m.getD 0 [] = List.replicate mp.decoder.out_dim 0)) := by
  constructor
  · rw [Seq2SeqAttention.forward, Seq2SeqAttention.run]
    split
    · simp
    · rename_i enc _heq
      rcases hres : (seqLoop ma.decoder enc.1 tar rate rnd (colCount tar - 1) 1
          (tar.map (fun row => row.getD 0 0)) enc.2.1 enc.2.2
          (zeros3 tar.length (colCount tar) ma.decoder.out_dim)).2 with _ | out
      · rw [hres]
        simp
      · rw [hres]
        simp only [Option.elim_some]
        exact seqLoop_keeps_zero_row ma.decoder enc.1 tar rate rnd _
          (colCount tar - 1) 1 _ _ _ _ (le_refl 1)
          (zeros3_zero_row tar.length (colCount tar) ma.decoder.out_dim hL)
          out hres
  · rw [Seq2Seq.forward, Seq2Seq.run]
    split
    · simp
    · simp only [Option.elim_some]
      exact seq2seqLoop_keeps_zero_row mp.decoder _ (colCount tar - 1) 1 _ _ _ _
        (le_refl 1)
        (zeros3_zero_row tar.length (colCount tar) mp.decoder.out_dim hL)

/-- Witness for claim C5 at concrete models and a length-2 target. -/
theorem output_time_zero_is_zero_witness :
    (((Seq2SeqAttention.forward ⟨encC2Ex,
          ⟨⟨"dot", 2, [], [], [], []⟩, fun _ => [0], 3, id,
            fun x s => (x, s), [], []⟩⟩
        [[0]] [1] [[0, 1], [2, 3]] 0 (fun _ => 0)).elim True (fun out =>
      ∀ m ∈ out, m.getD 0 [] = List.replicate 3 0)) ∧
    ((Seq2Seq.forward ⟨encC2ExPlain,
          ⟨fun _ => [0], 2, 3, 1, fun x s => (x, s), [], []⟩⟩
        [[0]] [1] [[0, 1], [2, 3]]).elim True (fun out =>
      ∀ m ∈ out, m.getD 0 [] = List.replicate 3 0))) :=
  output_time_zero_is_zero
    ⟨encC2Ex, ⟨⟨"dot", 2, [], [], [], []⟩, fun _ => [0], 3, id,
      fun x s => (x, s), [], []⟩⟩
    ⟨encC2ExPlain, ⟨fun _ => [0], 2, 3, 1, fun x s => (x, s), [], []⟩⟩
    [[0]] [[0]] [1] [1] [[0, 1], [2, 3]] 0 (fun _ => 0) (by decide)

theorem mem_of_mem_set {α : Type} (l : List α) (i : ℕ) (a x : α)
    (hx : x ∈ l.set i a) : x ∈ l ∨ x = a := by
  induction l generalizing i with
  | nil => simp at hx
  | cons y ys ih =>
    cases i with
    | zero =>
      simp only [List.set] at hx
      rcases List.mem_cons.mp hx with h | h
      · right
        exact h
      · left
        exact List.mem_cons_of_mem y h
    | succ n =>
      simp only [List.set] at hx
      rcases List.mem_cons.mp hx with h | h
      · left
        rw [h]
        exact List.mem_cons_self y ys
      · rcases ih n h with h2 | h2
        · left
          exact List.mem_cons_of_mem y h2
        · right
          exact h2

theorem attention_forward_length (a : Attention) (src tar : Ten3) (dist : Ten3)
    (hf : a.forward src tar = some dist) :
    dist.length = min src.length tar.length := by
  simp only [Attention.forward] at hf
  split_ifs at hf with h1 h2 h3
  · simp only [Option.map_some', Option.some.injEq] at hf
    subst hf
    simp [softmaxDim1, Attention.dot, bmm]
  · simp only [Option.map_some', Option.some.injEq] at hf
    subst hf
    simp [softmaxDim1, Attention.general, bmm]
  · simp only [Option.map_some', Option.some.injEq] at hf
    subst hf
    simp [softmaxDim1, Attention.concat]
  · simp at hf

theorem decoder_attention_pred_shape (d : DecoderAttentionRNN) (enc : Ten3)
    (inp : List ℕ) (h c : List Mat) (pred : Mat) (h2 c2 : List Mat) (B : ℕ)
    (hbn : ∀ x, (d.batch_norm x).length = x.length)
    (hrnn : ∀ x s, ((d.rnn x s).1).length = x.length)
    (hencB : enc.length = B) (hinp : inp.length = B)
    (hfwd : DecoderAttentionRNN.forward d enc inp h c = some (pred, h2, c2)) :
    pred.length = B ∧
    ∀ r ∈ pred, r.length = min d.linearW.length d.linearB.length := by
  simp only [DecoderAttentionRNN.forward] at hfwd
  split at hfwd
  · simp at hfwd
  · rename_i dist hdist
    simp only [Option.some.injEq, Prod.mk.injEq] at hfwd
    obtain ⟨hpred, _hh2, _hc2⟩ := hfwd
    subst hpred
    have hdec : ((d.rnn (d.batch_norm ((inp.map d.embedding).map (fun v => [v])))
        (h, c)).1).length = B := by
      rw [hrnn, hbn]
      simp [hinp]
    have hdist2 : dist.length = B := by
      rw [attention_forward_length _ _ _ _ hdist, hencB, hdec, Nat.min_self]
    constructor
    · rw [List.length_map, List.length_zipWith, List.length_map, hdec,
        List.length_map, List.length_zipWith, hencB, hdist2, Nat.min_self,
        Nat.min_self]
    · intro r hr
      rcases List.mem_map.mp hr with ⟨x, _hx, rfl⟩
      exact linear_length d.linearW d.linearB x

theorem seqLoop_shape (d : DecoderAttentionRNN) (enc : Ten3)
    (tar : List (List ℕ)) (rate : ℝ) (rnd : ℕ → ℝ) (B L V : ℕ)
    (hbn : ∀ x, (d.batch_norm x).length = x.length)
    (hrnn : ∀ x s, ((d.rnn x s).1).length = x.length)
    (hencB : enc.length = B) (htarB : tar.length = B)
    (hW : d.linearW.length = V) (hB2 : d.linearB.length = V) :
    ∀ k t inp h c outs, inp.length = B → tshape outs B L V →
      ∀ out, (seqLoop d enc tar rate rnd k t inp h c outs).2 = some out →
        tshape out B L V := by
  intro k
  induction k with
  | zero =>
    intro t inp h c outs _hinp houts out hout
    simp only [seqLoop, Option.some.injEq] at hout
    subst hout
    exact houts
  | succ k ih =>
    intro t inp h c outs hinp houts out hout
    simp only [seqLoop] at hout
    split at hout
    · simp at hout
    · rename_i r hfwd
      have hps := decoder_attention_pred_shape d enc inp h c r.1 r.2.1 r.2.2 B
        hbn hrnn hencB hinp (by rw [hfwd])
      have hpredB : r.1.length = B := hps.1
      have hrows : ∀ rr ∈ r.1, rr.length = V := by
        intro rr hrr
        rw [hps.2 rr hrr, hW, hB2, Nat.min_self]
      refine ih (t + 1) _ _ _ _ ?_ ?_ out hout
      · unfold nextInput
        split
        · simp [htarB]
        · simp [hpredB]
      · constructor
        · rw [writeTime, List.length_zipWith, houts.1, hpredB, Nat.min_self]
        · intro m hm
          rcases mem_zipWith _ _ _ _ hm with ⟨m0, p, hm0, hp, rfl⟩
          constructor
          · rw [List.length_set]
            exact (houts.2 m0 hm0).1
          · intro row hrow
            rcases mem_of_mem_set _ _ _ _ hrow with hrr | hrr
            · exact (houts.2 m0 hm0).2 row hrr
            · rw [hrr]
              exact hrows p hp

theorem decoder_plain_pred_shape (d : DecoderRNN) (inp : List ℕ)
    (h c : List Mat)
    (hrnn : ∀ x s, ((d.rnn x s).1).length = x.length) :
    (DecoderRNN.forward d inp h c).1.length = inp.length ∧
    ∀ r ∈ (DecoderRNN.forward d inp h c).1,
      r.length = min d.outW.length d.outB.length := by
  constructor
  · simp [DecoderRNN.forward, hrnn]
  · intro r hr
    simp only [DecoderRNN.forward] at hr
    rcases List.mem_map.mp hr with ⟨x, _hx, rfl⟩
    exact linear_length d.outW d.outB x

theorem seq2seqLoop_shape (d : DecoderRNN) (B L V : ℕ)
    (hrnn : ∀ x s, ((d.rnn x s).1).length = x.length)
    (hW : d.outW.length = V) (hB2 : d.outB.length = V) :
    ∀ k t inp h c outs, inp.length = B → tshape outs B L V →
      tshape (seq2seqLoop d k t inp h c outs).2 B L V := by
  intro k
  induction k with
  | zero =>
    intro t inp h c outs _hinp houts
    simpa [seq2seqLoop] using houts
  | succ k ih =>
    intro t inp h c outs hinp houts
    simp only [seq2seqLoop]
    have hps := decoder_plain_pred_shape d inp h c hrnn
    have hpredB : (DecoderRNN.forward d inp h c).1.length = B := by
      rw [hps.1, hinp]
    have hrows : ∀ rr ∈ (DecoderRNN.forward d inp h c).1, rr.length = V := by
      intro rr hrr
      rw [hps.2 rr hrr, hW, hB2, Nat.min_self]
    refine ih (t + 1) _ _ _ _ ?_ ?_
    · simp [hpredB]
    · constructor
      · rw [writeTime, List.length_zipWith, houts.1, hpredB, Nat.min_self]
      · intro m hm
        rcases mem_zipWith _ _ _ _ hm with ⟨m0, p, hm0, hp, rfl⟩
        constructor
        · rw [List.length_set]
          exact (houts.2 m0 hm0).1
        · intro row hrow
          rcases mem_of_mem_set _ _ _ _ hrow with hrr | hrr
          · exact (houts.2 m0 hm0).2 row hrr
          · rw [hrr]
            exact hrows p hp

theorem encoder_forward_output_length (e : EncoderRNN)
    (inputs : List (List ℕ)) (length : List ℕ)
    (res : Ten3 × List Mat × List Mat)
    (hbn : ∀ x, (e.batch_norm x).length = x.length)
    (hrnn : ∀ p, ((e.rnn p).1).length = p.1.length)
    (hok : (e.forward inputs length).2 = Except.ok res) :
    res.1.length = inputs.length := by
  simp only [EncoderRNN.forward] at hok
  split at hok
  · simp at hok
  · rename_i packed hpack
    simp only [Except.ok.injEq] at hok
    subst hok
    have hp1 : packed.1 =
        e.batch_norm (inputs.map (fun row => row.map e.embedding)) := by
      simp only [pack_padded_sequence] at hpack
      split_ifs at hpack
      simp only [Except.ok.injEq] at hpack
      rw [← hpack]
    simp [pad_packed_sequence, hrnn, hp1, hbn]

theorem zeros3_tshape (tar : List (List ℕ)) (B L V : ℕ)
    (htar : mshape tar B L) :
    tshape (zeros3 tar.length (colCount tar) V) B L V := by
  constructor
  · simp [zeros3, htar.1]
  · intro m hm
    rcases List.mem_replicate.mp hm with ⟨hne, rfl⟩
    have hcc : colCount tar = L := by
      rcases tar with _ | ⟨r0, rest⟩
      · simp at hne
      · simpa [colCount] using htar.2 r0 (List.mem_cons_self r0 rest)
    constructor
    · simp [hcc]
    · intro row hrow
      have := List.eq_of_mem_replicate hrow
      subst this
      simp

/-- Claim C9: for both architectures, given a target input of shape
(B, L) and the configured output vocabulary size (the out_dim the output
projection layer was built with), the output score tensor the driver
returns has shape (B, L, out_dim).  The abstract library modules are
assumed to respect their documented batch-preservation contracts. -/
theorem output_shape_law (ma : Seq2SeqAttention) (mp : Seq2Seq)
    (src srcP : List (List ℕ)) (srcLen srcLenP : List ℕ)
    (tar : List (List ℕ)) (rate : ℝ) (rnd : ℕ → ℝ) (B L : ℕ)
    (htar : mshape tar B L)
    (hsrc : src.length = B)
    (habn : ∀ x, (ma.encoder.batch_norm x).length = x.length)
    (harnn : ∀ p, ((ma.encoder.rnn p).1).length = p.1.length)
    (hdbn : ∀ x, (ma.decoder.batch_norm x).length = x.length)
    (hdrnn : ∀ x s, ((ma.decoder.rnn x s).1).length = x.length)
    (hWa : ma.decoder.linearW.length = ma.decoder.out_dim)
    (hBa : ma.decoder.linearB.length = ma.decoder.out_dim)
    (hprnn : ∀ x s, ((mp.decoder.rnn x s).1).length = x.length)
    (hWp : mp.decoder.outW.length = mp.decoder.out_dim)
    (hBp : mp.decoder.outB.length = mp.decoder.out_dim) :
    ((ma.forward src srcLen tar rate rnd).elim True
      (fun out => tshape out B L ma.decoder.out_dim)) ∧
    ((mp.forward srcP srcLenP tar).elim True
      (fun out => tshape out B L mp.decoder.out_dim)) := by
  constructor
  · rw [Seq2SeqAttention.forward, Seq2SeqAttention.run]
    split
    · simp
    · rename_i enc heq
      have hencB : enc.1.length = B := by
        rw [encoder_forward_output_length ma.encoder src srcLen enc habn harnn heq,
          hsrc]
      rcases hres : (seqLoop ma.decoder enc.1 tar rate rnd (colCount tar - 1) 1
          (tar.map (fun row => row.getD 0 0)) enc.2.1 enc.2.2
          (zeros3 tar.length (colCount tar) ma.decoder.out_dim)).2 with _ | out
      · rw [hres]
        simp
      · rw [hres]
        simp only [Option.elim_some]
        exact seqLoop_shape ma.decoder enc.1 tar rate rnd B L ma.decoder.out_dim
          hdbn hdrnn hencB htar.1 hWa hBa (colCount tar - 1) 1 _ _ _ _
          (by simp [htar.1]) (zeros3_tshape tar B L ma.decoder.out_dim htar)
          out hres
  · rw [Seq2Seq.forward, Seq2Seq.run]
    split
    · simp
    · simp only [Option.elim_some]
      exact seq2seqLoop_shape mp.decoder B L mp.decoder.out_dim hprnn hWp hBp
        (colCount tar - 1) 1 _ _ _ _ (by simp [htar.1])
        (zeros3_tshape tar B L mp.decoder.out_dim htar)

/-- Witness for claim C9 at concrete models, B = 2, L = 2, out_dim = 1. -/
theorem output_shape_law_witness :
    ((Seq2SeqAttention.forward ⟨encC2Ex,
        ⟨⟨"dot", 2, [], [], [], []⟩, fun _ => [0], 1, id,
          fun x s => (x, s), [[1]], [0]⟩⟩
      [[0], [1]] [1, 1] [[0, 1], [2, 3]] 0 (fun _ => 0)).elim True
      (fun out => tshape out 2 2 1)) ∧
    ((Seq2Seq.forward ⟨encC2ExPlain,
        ⟨fun _ => [0], 2, 1, 1, fun x s => (x, s), [[1]], [0]⟩⟩
      [[0], [1]] [1, 1] [[0, 1], [2, 3]]).elim True
      (fun out => tshape out 2 2 1)) :=
  output_shape_law
    ⟨encC2Ex, ⟨⟨"dot", 2, [], [], [], []⟩, fun _ => [0], 1, id,
      fun x s => (x, s), [[1]], [0]⟩⟩
    ⟨encC2ExPlain, ⟨fun _ => [0], 2, 1, 1, fun x s => (x, s), [[1]], [0]⟩⟩
    [[0], [1]] [[0], [1]] [1, 1] [1, 1] [[0, 1], [2, 3]] 0 (fun _ => 0) 2 2
    (by decide) rfl (fun x => rfl) (fun p => rfl) (fun x => rfl)
    (fun x s => rfl) rfl rfl (fun x s => rfl) rfl rfl

end NMT
